import Mathlib

/-!
Verification of the embedding-visualization pipeline: a shallow embedding of
`src/backend/visualize_embeddings.py`, `src/backend/app.py` and
`src/api/visualize.py`, with theorems checking the specified properties of
cluster-representative selection, title folding, input validation and the
orchestrator's branching behaviour.

Python strings are modelled as `List Char`, numpy float vectors as `List ℚ`
(exact arithmetic in place of IEEE floats; the algorithms under study are
mean / squared-distance / argmin computations whose branch structure is
identical over ℚ), and numpy integer label arrays as `List ℕ`.
-/

/-- Python string model. -/
abbrev PyStr := List Char

/-! ## Cluster representative selection (`visualize_embeddings.py`, lines 22-46) -/

/-- `np.where(labels == i)[0]`: the (ascending) positions `j` of `labels`
holding the value `i`. -/
def clusterIndices (labels : List ℕ) (i : ℕ) : List ℕ :=
  (List.range labels.length).filter (fun j => labels.getD j 0 == i)

/-- `np.mean(vs, axis=0)`: coordinate-wise mean of a family of vectors. -/
def centroid (vs : List (List ℚ)) : List ℚ :=
  (List.range (vs.headD []).length).map
    (fun d => (vs.map (fun v => v.getD d 0)).sum / (vs.length : ℚ))

/-- `np.sum((a - b) ** 2)`: the sum of squared coordinate differences. -/
def sqDist (a b : List ℚ) : ℚ :=
  (List.zipWith (fun x y => (x - y) * (x - y)) a b).sum

/-- The minimum value of a list of rationals (`0` on the empty list, which the
code never queries). -/
def listMin : List ℚ → ℚ
  | [] => 0
  | [x] => x
  | x :: y :: t => min x (listMin (y :: t))

/-- `np.argmin`: index of the first occurrence of the minimum value. -/
def argminQ : List ℚ → ℕ
  | [] => 0
  | [_] => 0
  | x :: y :: t => if x ≤ listMin (y :: t) then 0 else argminQ (y :: t) + 1

/-- One iteration of the loop body of `cluster_center_idxs` for label `i`:
`None` models the `continue` on an empty cluster, otherwise the original index
of the member closest (by squared distance, `np.argmin` tie-break) to the
cluster centroid. -/
def repForLabel (embeddings : List (List ℚ)) (labels : List ℕ) (i : ℕ) : Option ℕ :=
  let cluster_indices := clusterIndices labels i
  if cluster_indices.isEmpty then none
  else
    let cluster_embeddings := cluster_indices.map (fun j => embeddings.getD j [])
    let cluster_center := centroid cluster_embeddings
    let distances := cluster_embeddings.map (fun v => sqDist v cluster_center)
    some (cluster_indices.getD (argminQ distances) 0)

/-- `cluster_center_idxs(embeddings, labels)`: iterates `i` over
`range(len(set(labels)))`, skipping empty clusters and collecting the
closest-to-centroid original index for the rest. -/
def cluster_center_idxs (embeddings : List (List ℚ)) (labels : List ℕ) : List ℕ :=
  (List.range labels.dedup.length).filterMap (repForLabel embeddings labels)

/-- Modelled from the spec: "for each distinct label value present, compute the
centroid as the coordinate-wise mean of member vectors; pick the member index
minimizing sum of squared coordinate differences to the centroid; ties broken
by lowest index."  Stated independently of the loop in the source: the first
member (lowest index) whose distance is at most every member's distance. -/
def spec_representative (embeddings : List (List ℚ)) (labels : List ℕ) (v : ℕ) : Option ℕ :=
  let members := clusterIndices labels v
  let center := centroid (members.map (fun j => embeddings.getD j []))
  members.find? (fun j => members.all
    (fun j' => decide (sqDist (embeddings.getD j []) center ≤
                       sqDist (embeddings.getD j' []) center)))

/-! ## Helper lemmas about `listMin`, `argminQ`, `find?` -/

lemma listMin_singleton (a : ℚ) : listMin [a] = a := rfl

lemma listMin_cons₂ (a b : ℚ) (t : List ℚ) :
    listMin (a :: b :: t) = min a (listMin (b :: t)) := rfl

lemma argminQ_cons₂ (a b : ℚ) (t : List ℚ) :
    argminQ (a :: b :: t) = if a ≤ listMin (b :: t) then 0 else argminQ (b :: t) + 1 := rfl

lemma listMin_mem : ∀ (L : List ℚ), L ≠ [] → listMin L ∈ L
  | [x], _ => by simp [listMin_singleton]
  | x :: y :: t, _ => by
      by_cases h : x ≤ listMin (y :: t)
      · rw [listMin_cons₂, min_eq_left h]
        exact List.mem_cons_self x _
      · rw [listMin_cons₂, min_eq_right (le_of_not_le h)]
        exact List.mem_cons_of_mem x (listMin_mem (y :: t) (by simp))

lemma le_listMin_iff : ∀ (L : List ℚ), L ≠ [] → ∀ a : ℚ, (a ≤ listMin L ↔ ∀ b ∈ L, a ≤ b)
  | [x], _, a => by simp [listMin_singleton]
  | x :: y :: t, _, a => by
      rw [listMin_cons₂, le_min_iff, le_listMin_iff (y :: t) (by simp) a]
      simp [List.forall_mem_cons]

lemma find?_congr_on {α : Type} {p q : α → Bool} :
    ∀ (l : List α), (∀ a ∈ l, p a = q a) → l.find? p = l.find? q
  | [], _ => rfl
  | a :: t, h => by
      have ha := h a (List.mem_cons_self a t)
      by_cases hq : q a = true
      · rw [List.find?_cons_of_pos t (ha ▸ hq), List.find?_cons_of_pos t hq]
      · rw [List.find?_cons_of_neg t (by rw [ha]; exact hq), List.find?_cons_of_neg t hq]
        exact find?_congr_on t (fun b hb => h b (List.mem_cons_of_mem a hb))

/-- `np.argmin` over the mapped values selects exactly the first element whose
value is a lower bound for all values: the spec's "ties broken by lowest index"
policy. -/
lemma argmin_getD_eq_find? (f : ℕ → ℚ) :
    ∀ (xs : List ℕ), xs ≠ [] →
      some (xs.getD (argminQ (xs.map f)) 0) =
        xs.find? (fun j => xs.all (fun j' => decide (f j ≤ f j')))
  | [x], _ => by
      rw [List.find?_cons_of_pos _ (by simp)]
      simp [argminQ]
  | x :: y :: t, _ => by
      simp only [List.map_cons]
      rw [argminQ_cons₂]
      by_cases h : f x ≤ listMin (f y :: List.map f t)
      · have hall : ((x :: y :: t).all (fun j' => decide (f x ≤ f j'))) = true := by
          rw [List.all_eq_true]
          intro j' hj'
          rcases List.mem_cons.mp hj' with rfl | hj'
          · simp
          · have hm := (le_listMin_iff (f y :: List.map f t) (by simp) (f x)).mp h
            have : f j' ∈ f y :: List.map f t := by
              rcases List.mem_cons.mp hj' with rfl | hj'
              · exact List.mem_cons_self _ _
              · exact List.mem_cons_of_mem _ (List.mem_map_of_mem f hj')
            exact decide_eq_true (hm (f j') this)
        have hfind := @List.find?_cons_of_pos ℕ
          (fun j => (x :: y :: t).all fun j' => decide (f j ≤ f j')) x (y :: t) hall
        rw [if_pos h, hfind]
        rfl
      · have hlt : listMin (f y :: List.map f t) < f x := lt_of_not_le h
        have hminmem : listMin (f y :: List.map f t) ∈ f y :: List.map f t :=
          listMin_mem _ (by simp)
        have hxfalse : ((x :: y :: t).all (fun j' => decide (f x ≤ f j'))) = false := by
          rw [Bool.eq_false_iff]
          intro hall
          rw [List.all_eq_true] at hall
          have : ∀ b ∈ f y :: List.map f t, f x ≤ b := by
            intro b hb
            rcases List.mem_cons.mp hb with rfl | hb
            · simpa using hall y (by simp)
            · obtain ⟨j', hj', rfl⟩ := List.mem_map.mp hb
              simpa using hall j' (by simp [hj'])
          exact absurd ((le_listMin_iff _ (by simp) (f x)).mpr this) h
        have hfind := @List.find?_cons_of_neg ℕ
          (fun j => (x :: y :: t).all fun j' => decide (f j ≤ f j')) x (y :: t)
          (by simp [hxfalse])
        rw [if_neg h, hfind, List.getD_cons_succ]
        have IH := argmin_getD_eq_find? f (y :: t) (by simp)
        simp only [List.map_cons] at IH
        rw [IH]
        apply find?_congr_on
        intro j hj
        simp only [List.all_cons]
        cases hA : (decide (f j ≤ f y) && t.all fun j' => decide (f j ≤ f j')) with
        | false => simp
        | true =>
            have hq : ((y :: t).all fun j' => decide (f j ≤ f j')) = true := by
              rw [List.all_cons]; exact hA
            have hjmin : f j ≤ listMin (f y :: List.map f t) := by
              rw [List.all_eq_true] at hq
              refine (le_listMin_iff _ (by simp) (f j)).mpr ?_
              intro b hb
              rcases List.mem_cons.mp hb with rfl | hb
              · simpa using hq y (by simp)
              · obtain ⟨j', hj', rfl⟩ := List.mem_map.mp hb
                simpa using hq j' (by simp [hj'])
            simp [decide_eq_true (le_of_lt (lt_of_le_of_lt hjmin hlt))]

/-! ## Characterization of `repForLabel` and `cluster_center_idxs` -/

lemma mem_clusterIndices {l : List ℕ} {i j : ℕ} :
    j ∈ clusterIndices l i ↔ j < l.length ∧ l.getD j 0 = i := by
  simp [clusterIndices]

lemma clusterIndices_ne_nil {l : List ℕ} {i : ℕ} :
    clusterIndices l i ≠ [] ↔ i ∈ l := by
  constructor
  · intro h
    obtain ⟨j, hj⟩ := List.exists_mem_of_ne_nil _ h
    obtain ⟨hlt, hv⟩ := mem_clusterIndices.mp hj
    rw [← hv, List.getD_eq_getElem l 0 hlt]
    exact List.getElem_mem hlt
  · intro h hnil
    obtain ⟨j, hjlt, hj⟩ := List.mem_iff_getElem.mp h
    have : j ∈ clusterIndices l i :=
      mem_clusterIndices.mpr ⟨hjlt, by rw [List.getD_eq_getElem l 0 hjlt]; exact hj⟩
    simp [hnil] at this

/-- The loop body computes exactly the spec's representative: the lowest-index
member minimizing squared distance to the coordinate-wise-mean centroid. -/
lemma repForLabel_eq_spec (e : List (List ℚ)) (l : List ℕ) (v : ℕ) :
    repForLabel e l v = spec_representative e l v := by
  unfold repForLabel spec_representative
  by_cases h : clusterIndices l v = []
  · simp [h]
  · rw [if_neg (by simpa [List.isEmpty_iff] using h)]
    simp only [List.map_map]
    exact argmin_getD_eq_find?
      (fun j => sqDist (e.getD j []) (centroid ((clusterIndices l v).map fun j => e.getD j [])))
      (clusterIndices l v) h

lemma repForLabel_none {e : List (List ℚ)} {l : List ℕ} {i : ℕ}
    (h : clusterIndices l i = []) : repForLabel e l i = none := by
  unfold repForLabel
  rw [if_pos (by simpa [List.isEmpty_iff] using h)]

lemma repForLabel_isSome {e : List (List ℚ)} {l : List ℕ} {i : ℕ}
    (h : clusterIndices l i ≠ []) : ∃ idx, repForLabel e l i = some idx := by
  unfold repForLabel
  rw [if_neg (by simpa [List.isEmpty_iff] using h)]
  exact ⟨_, rfl⟩

lemma repForLabel_mem {e : List (List ℚ)} {l : List ℕ} {i idx : ℕ}
    (h : repForLabel e l i = some idx) : idx ∈ clusterIndices l i := by
  rw [repForLabel_eq_spec] at h
  exact List.mem_of_find?_eq_some h

lemma repForLabel_lt_length {e : List (List ℚ)} {l : List ℕ} {i idx : ℕ}
    (h : repForLabel e l i = some idx) : idx < l.length :=
  (mem_clusterIndices.mp (repForLabel_mem h)).1

lemma repForLabel_label {e : List (List ℚ)} {l : List ℕ} {i idx : ℕ}
    (h : repForLabel e l i = some idx) : l.getD idx 0 = i :=
  (mem_clusterIndices.mp (repForLabel_mem h)).2

lemma mem_cluster_center_idxs {e : List (List ℚ)} {l : List ℕ} {idx : ℕ} :
    idx ∈ cluster_center_idxs e l ↔
      ∃ i, i < l.dedup.length ∧ repForLabel e l i = some idx := by
  simp [cluster_center_idxs, List.mem_filterMap, List.mem_range]

lemma length_dedup_le_of_forall_lt {l : List ℕ} {k : ℕ} (h : ∀ v ∈ l, v < k) :
    l.dedup.length ≤ k := by
  have hnd : l.dedup.Nodup := List.nodup_dedup l
  have hsub : l.dedup.toFinset ⊆ Finset.range k := by
    intro v hv
    simp only [List.mem_toFinset, List.mem_dedup] at hv
    exact Finset.mem_range.mpr (h v hv)
  calc l.dedup.length = l.dedup.toFinset.card := (List.toFinset_card_of_nodup hnd).symm
    _ ≤ (Finset.range k).card := Finset.card_le_card hsub
    _ = k := Finset.card_range k

lemma cluster_center_idxs_length_le (e : List (List ℚ)) (l : List ℕ) :
    (cluster_center_idxs e l).length ≤ l.dedup.length := by
  have := List.length_filterMap_le (repForLabel e l) (List.range l.dedup.length)
  simpa [cluster_center_idxs] using this

lemma cluster_center_idxs_pairwise (e : List (List ℚ)) (l : List ℕ) :
    List.Pairwise (fun a b => l.getD a 0 < l.getD b 0) (cluster_center_idxs e l) := by
  refine List.Pairwise.filterMap (repForLabel e l) ?_ (List.pairwise_lt_range _)
  intro a a' haa' b hb b' hb'
  simp only [Option.mem_def] at hb hb'
  rw [repForLabel_label hb, repForLabel_label hb']
  exact haa'

lemma cluster_center_idxs_label_unique {e : List (List ℚ)} {l : List ℕ} {a b : ℕ}
    (ha : a ∈ cluster_center_idxs e l) (hb : b ∈ cluster_center_idxs e l)
    (hl : l.getD a 0 = l.getD b 0) : a = b := by
  obtain ⟨i, _, hia⟩ := mem_cluster_center_idxs.mp ha
  obtain ⟨i', _, hib⟩ := mem_cluster_center_idxs.mp hb
  have : i = i' := by rw [← repForLabel_label hia, ← repForLabel_label hib, hl]
  subst this
  rw [hia] at hib
  exact Option.some_injective _ hib

lemma cluster_center_idxs_mem_bound {e : List (List ℚ)} {l : List ℕ} {idx : ℕ}
    (h : idx ∈ cluster_center_idxs e l) :
    idx < l.length ∧ l.getD idx 0 < l.dedup.length := by
  obtain ⟨i, hi, hrep⟩ := mem_cluster_center_idxs.mp h
  exact ⟨repForLabel_lt_length hrep, by rw [repForLabel_label hrep]; exact hi⟩

/-! ## Sample inputs used by witnesses -/

def sampleEmbeddings : List (List ℚ) := [[0], [0], [2], [4]]

def sampleLabels : List ℕ := [0, 0, 1, 1]

/-! ## Claims C1, C2, C10 -/

/-- Claim C1, counterexample: the claim "every cluster label with at least one
member contributes exactly one representative (no non-empty cluster is
skipped)" is false for `cluster_center_idxs`.  With labels `[1, 1]` the label
value `1` has two members, but the loop runs over `range(len(set(labels))) =
[0]` only, so label `1` is skipped and no representative at all is returned. -/
theorem cluster_center_idxs_skips_nonempty_high_label :
    ¬ (∀ i ∈ ([1, 1] : List ℕ), ∃ idx ∈ cluster_center_idxs [[(0 : ℚ)], [0]] [1, 1],
        [1, 1].getD idx 0 = i) := by
  intro h
  obtain ⟨idx, hidx, -⟩ := h 1 (by decide)
  rw [show cluster_center_idxs [[(0 : ℚ)], [0]] [1, 1] = [] from rfl] at hidx
  exact absurd hidx (List.not_mem_nil idx)

/-- Claim C1 (amended): every representative index returned by
`cluster_center_idxs` lies within `[0, N)` and its label equals the cluster
label it represents, which is always smaller than the number of distinct label
values; every label value that is both below `len(set(labels))` and populated
contributes exactly one representative; labels with zero members contribute no
representative (a populated label `≥ len(set(labels))` is skipped as well, per
the counterexample); consequently when all labels are below `k` there are at
most `k` representatives (so at most 2 for the k=2 panel, 4 for the k=4
panel). -/
theorem cluster_center_idxs_representative_soundness
    (e : List (List ℚ)) (l : List ℕ) (h : l.length = e.length) :
    (∀ idx ∈ cluster_center_idxs e l, idx < e.length ∧ l.getD idx 0 < l.dedup.length)
    ∧ (∀ i, i < l.dedup.length → i ∈ l →
        ∃! idx, idx ∈ cluster_center_idxs e l ∧ l.getD idx 0 = i)
    ∧ (∀ i, i ∉ l → ∀ idx ∈ cluster_center_idxs e l, l.getD idx 0 ≠ i)
    ∧ (∀ k, (∀ v ∈ l, v < k) → (cluster_center_idxs e l).length ≤ k) := by
  refine ⟨?_, ?_, ?_, ?_⟩
  · intro idx hidx
    obtain ⟨hlt, hlab⟩ := cluster_center_idxs_mem_bound hidx
    exact ⟨h ▸ hlt, hlab⟩
  · intro i hi hmem
    obtain ⟨idx, hrep⟩ := @repForLabel_isSome e l i (clusterIndices_ne_nil.mpr hmem)
    have hidx : idx ∈ cluster_center_idxs e l := mem_cluster_center_idxs.mpr ⟨i, hi, hrep⟩
    refine ⟨idx, ⟨hidx, repForLabel_label hrep⟩, ?_⟩
    rintro idx' ⟨hmem', hlab'⟩
    exact cluster_center_idxs_label_unique hmem' hidx
      (by rw [hlab', repForLabel_label hrep])
  · intro i hnot idx hidx hlab
    obtain ⟨i', hi', hrep⟩ := mem_cluster_center_idxs.mp hidx
    have hii : i' = i := by rw [← repForLabel_label hrep, hlab]
    subst hii
    have hne : clusterIndices l i' ≠ [] := by
      intro hnil
      rw [repForLabel_none hnil] at hrep
      exact Option.noConfusion hrep
    exact hnot (clusterIndices_ne_nil.mp hne)
  · intro k hk
    exact le_trans (cluster_center_idxs_length_le e l) (length_dedup_le_of_forall_lt hk)

/-- Witness for `cluster_center_idxs_representative_soundness` at a concrete
input of four 1-dimensional embeddings with labels `[0, 0, 1, 1]`. -/
theorem cluster_center_idxs_representative_soundness_witness :
    sampleLabels.length = sampleEmbeddings.length ∧
    ((∀ idx ∈ cluster_center_idxs sampleEmbeddings sampleLabels,
        idx < sampleEmbeddings.length ∧ sampleLabels.getD idx 0 < sampleLabels.dedup.length)
     ∧ (∀ i, i < sampleLabels.dedup.length → i ∈ sampleLabels →
         ∃! idx, idx ∈ cluster_center_idxs sampleEmbeddings sampleLabels
            ∧ sampleLabels.getD idx 0 = i)
     ∧ (∀ i, i ∉ sampleLabels → ∀ idx ∈ cluster_center_idxs sampleEmbeddings sampleLabels,
         sampleLabels.getD idx 0 ≠ i)
     ∧ (∀ k, (∀ v ∈ sampleLabels, v < k) →
         (cluster_center_idxs sampleEmbeddings sampleLabels).length ≤ k)) :=
  ⟨rfl, cluster_center_idxs_representative_soundness sampleEmbeddings sampleLabels rfl⟩

/-- Claim C2, counterexample: for the present label value `1` (labels `[1, 1]`)
the spec's centroid/argmin representative is index `0`, yet
`cluster_center_idxs` chooses no representative for it at all (its loop stops
at `len(set(labels)) = 1`), so the claim fails for this label value. -/
theorem cluster_center_idxs_misses_present_label_representative :
    (1 : ℕ) ∈ ([1, 1] : List ℕ)
    ∧ spec_representative [[(0 : ℚ)], [0]] [1, 1] 1 = some 0
    ∧ cluster_center_idxs [[(0 : ℚ)], [0]] [1, 1] = []
    ∧ ¬ (∀ v ∈ ([1, 1] : List ℕ), ∃ idx ∈ cluster_center_idxs [[(0 : ℚ)], [0]] [1, 1],
          spec_representative [[(0 : ℚ)], [0]] [1, 1] v = some idx) := by
  refine ⟨by decide, ?_, rfl, ?_⟩
  · norm_num [spec_representative, clusterIndices, centroid, sqDist, List.range_succ]
  · intro h
    obtain ⟨idx, hidx, -⟩ := h 1 (by decide)
    rw [show cluster_center_idxs [[(0 : ℚ)], [0]] [1, 1] = [] from rfl] at hidx
    exact absurd hidx (List.not_mem_nil idx)

/-- Claim C2 (amended): for every label value `v` that is populated and below
`len(set(labels))`, the representative chosen by `cluster_center_idxs` exists
and is exactly the spec's choice: the member index minimizing the sum of
squared coordinate differences to the coordinate-wise-mean centroid, ties
broken by lowest original index (`spec_representative`). -/
theorem cluster_center_idxs_matches_spec_representative
    (e : List (List ℚ)) (l : List ℕ) (v : ℕ)
    (hv : v < l.dedup.length) (hm : v ∈ l) :
    ∃ idx, spec_representative e l v = some idx
      ∧ repForLabel e l v = some idx
      ∧ idx ∈ cluster_center_idxs e l := by
  obtain ⟨idx, hrep⟩ := @repForLabel_isSome e l v (clusterIndices_ne_nil.mpr hm)
  exact ⟨idx, by rw [← repForLabel_eq_spec]; exact hrep, hrep,
    mem_cluster_center_idxs.mpr ⟨v, hv, hrep⟩⟩

/-- Witness for `cluster_center_idxs_matches_spec_representative` at label
value `1` of the concrete sample input. -/
theorem cluster_center_idxs_matches_spec_representative_witness :
    (1 < sampleLabels.dedup.length) ∧ (1 ∈ sampleLabels)
    ∧ ∃ idx, spec_representative sampleEmbeddings sampleLabels 1 = some idx
        ∧ repForLabel sampleEmbeddings sampleLabels 1 = some idx
        ∧ idx ∈ cluster_center_idxs sampleEmbeddings sampleLabels :=
  ⟨by decide, by decide,
    cluster_center_idxs_matches_spec_representative sampleEmbeddings sampleLabels 1
      (by decide) (by decide)⟩

/-- Claim C10: the representative indices are pairwise distinct, listed in
strictly increasing order of the cluster label they represent, each label
represented is in `[0, len(set(labels)))`, each index is in `[0, N)`, and
there is at most one representative per label value. -/
theorem cluster_center_idxs_ordered_distinct
    (e : List (List ℚ)) (l : List ℕ) (h : l.length = e.length) :
    List.Pairwise (fun a b => l.getD a 0 < l.getD b 0) (cluster_center_idxs e l)
    ∧ (cluster_center_idxs e l).Nodup
    ∧ (∀ idx ∈ cluster_center_idxs e l, l.getD idx 0 < l.dedup.length ∧ idx < e.length)
    ∧ (∀ i, ∀ a ∈ cluster_center_idxs e l, ∀ b ∈ cluster_center_idxs e l,
        l.getD a 0 = i → l.getD b 0 = i → a = b) := by
  refine ⟨cluster_center_idxs_pairwise e l, ?_, ?_, ?_⟩
  · exact (cluster_center_idxs_pairwise e l).imp
      (fun hab heq => absurd (heq ▸ hab) (lt_irrefl _))
  · intro idx hidx
    obtain ⟨h1, h2⟩ := cluster_center_idxs_mem_bound hidx
    exact ⟨h2, h ▸ h1⟩
  · intro i a ha b hb hla hlb
    exact cluster_center_idxs_label_unique ha hb (by rw [hla, hlb])

/-- Witness for `cluster_center_idxs_ordered_distinct` at the concrete sample
input. -/
theorem cluster_center_idxs_ordered_distinct_witness :
    sampleLabels.length = sampleEmbeddings.length ∧
    (List.Pairwise (fun a b => sampleLabels.getD a 0 < sampleLabels.getD b 0)
        (cluster_center_idxs sampleEmbeddings sampleLabels)
     ∧ (cluster_center_idxs sampleEmbeddings sampleLabels).Nodup
     ∧ (∀ idx ∈ cluster_center_idxs sampleEmbeddings sampleLabels,
         sampleLabels.getD idx 0 < sampleLabels.dedup.length ∧ idx < sampleEmbeddings.length)
     ∧ (∀ i, ∀ a ∈ cluster_center_idxs sampleEmbeddings sampleLabels,
         ∀ b ∈ cluster_center_idxs sampleEmbeddings sampleLabels,
         sampleLabels.getD a 0 = i → sampleLabels.getD b 0 = i → a = b)) :=
  ⟨rfl, cluster_center_idxs_ordered_distinct sampleEmbeddings sampleLabels rfl⟩

/-! ## Title folding (`visualize_embeddings.py`, lines 49-57) -/

/-- The whitespace characters removed by Python's `str.strip()` (ASCII part). -/
def pyIsSpace (c : Char) : Bool :=
  c == ' ' || c == '\t' || c == '\n' || c == '\r' || c == '\x0B' || c == '\x0C'

/-- Python `str.strip()`: remove leading and trailing whitespace. -/
def pyStrip (s : List Char) : List Char :=
  ((s.dropWhile pyIsSpace).reverse.dropWhile pyIsSpace).reverse

/-- Fuel-indexed chunking loop; fuel bounds the iteration count so the
recursion is structural (the loop consumes at least one character per
iteration, so `fuel = s.length` is always enough). -/
def foldChunksFuel : ℕ → List Char → List (List Char)
  | 0, _ => []
  | _, [] => []
  | fuel + 1, c :: rest => (c :: rest).take 30 :: foldChunksFuel fuel ((c :: rest).drop 30)

/-- The list of chunks `rest[:30]` produced by the `while` loop of
`fold_title`. -/
def foldChunks (s : List Char) : List (List Char) :=
  foldChunksFuel s.length s

/-- `fold_title(title)`: append a newline to each 30-character chunk,
concatenate, and strip the result. -/
def fold_title (title : List Char) : List Char :=
  pyStrip (((foldChunks title).map (fun ch => ch ++ ['\n'])).flatten)

lemma foldChunksFuel_nil : ∀ f, foldChunksFuel f [] = []
  | 0 => rfl
  | _ + 1 => rfl

lemma foldChunksFuel_congr : ∀ (f₁ f₂ : ℕ) (s : List Char),
    s.length ≤ f₁ → s.length ≤ f₂ → foldChunksFuel f₁ s = foldChunksFuel f₂ s
  | 0, f₂, s, h₁, _ => by
      have hs : s = [] := List.eq_nil_of_length_eq_zero (Nat.le_zero.mp h₁)
      subst hs
      rw [foldChunksFuel_nil, foldChunksFuel_nil]
  | _ + 1, _, [], _, _ => by rw [foldChunksFuel_nil, foldChunksFuel_nil]
  | _ + 1, 0, c :: rest, _, h₂ => by simp at h₂
  | f₁ + 1, f₂ + 1, c :: rest, h₁, h₂ => by
      show (c :: rest).take 30 :: foldChunksFuel f₁ ((c :: rest).drop 30)
         = (c :: rest).take 30 :: foldChunksFuel f₂ ((c :: rest).drop 30)
      have hlen : ((c :: rest).drop 30).length ≤ f₁ ∧ ((c :: rest).drop 30).length ≤ f₂ := by
        simp only [List.length_drop, List.length_cons] at *
        omega
      rw [foldChunksFuel_congr f₁ f₂ _ hlen.1 hlen.2]

lemma foldChunks_nil : foldChunks [] = [] := rfl

lemma foldChunks_cons (s : List Char) (h : s ≠ []) :
    foldChunks s = s.take 30 :: foldChunks (s.drop 30) := by
  obtain ⟨c, rest, rfl⟩ := List.exists_cons_of_ne_nil h
  show (c :: rest).take 30 :: foldChunksFuel rest.length ((c :: rest).drop 30)
     = (c :: rest).take 30 :: foldChunksFuel ((c :: rest).drop 30).length ((c :: rest).drop 30)
  have hlen : ((c :: rest).drop 30).length ≤ rest.length := by
    simp only [List.length_drop, List.length_cons]
    omega
  rw [foldChunksFuel_congr rest.length ((c :: rest).drop 30).length _ hlen (le_refl _)]

lemma foldChunks_flatten (s : List Char) : (foldChunks s).flatten = s := by
  by_cases h : s = []
  · subst h; rfl
  · rw [foldChunks_cons s h, List.flatten_cons, foldChunks_flatten (s.drop 30)]
    exact List.take_append_drop 30 s
termination_by s.length
decreasing_by
  simp only [List.length_drop]
  have := List.length_pos.mpr h
  omega

lemma foldChunks_chunk_facts (s : List Char) :
    ∀ ch ∈ foldChunks s, ch.length ≤ 30 ∧ ch ≠ [] := by
  by_cases h : s = []
  · subst h; simp [foldChunks_nil]
  · rw [foldChunks_cons s h]
    intro ch hch
    rcases List.mem_cons.mp hch with rfl | hch
    · constructor
      · exact List.length_take_le 30 s
      · simp [List.take_eq_nil_iff, h]
    · exact foldChunks_chunk_facts (s.drop 30) ch hch
termination_by s.length
decreasing_by
  simp only [List.length_drop]
  have := List.length_pos.mpr h
  omega

lemma foldChunks_length (s : List Char) (h : s ≠ []) :
    (foldChunks s).length = (s.length + 29) / 30 := by
  have hpos : 0 < s.length := List.length_pos.mpr h
  rw [foldChunks_cons s h]
  by_cases h30 : s.drop 30 = []
  · have hle : s.length ≤ 30 := by
      have := congrArg List.length h30
      simp only [List.length_drop, List.length_nil] at this
      omega
    rw [h30, foldChunks_nil]
    simp only [List.length_cons, List.length_nil]
    omega
  · have hgt : 30 < s.length := by
      by_contra hc
      push_neg at hc
      exact h30 (by simp [List.drop_eq_nil_iff, hc])
    simp only [List.length_cons]
    rw [foldChunks_length (s.drop 30) h30]
    simp only [List.length_drop]
    omega
termination_by s.length
decreasing_by
  simp only [List.length_drop]
  omega

lemma intercalate_single {α : Type} (sep x : List α) :
    List.intercalate sep [x] = x := by
  simp [List.intercalate]

lemma intercalate_cons_of_ne_nil {α : Type} (sep x : List α) (ys : List (List α))
    (h : ys ≠ []) :
    List.intercalate sep (x :: ys) = x ++ sep ++ List.intercalate sep ys := by
  obtain ⟨y, t, rfl⟩ := List.exists_cons_of_ne_nil h
  simp [List.intercalate, List.intersperse_cons_cons]

lemma intercalate_concat_ne_nil {α : Type} (sep x : List α) :
    ∀ (init : List (List α)), init ≠ [] →
      List.intercalate sep (init ++ [x]) = List.intercalate sep init ++ sep ++ x
  | [y], _ => by
      rw [List.singleton_append, intercalate_cons_of_ne_nil sep y [x] (by simp),
        intercalate_single, intercalate_single]
  | y :: y' :: t, _ => by
      rw [List.cons_append, intercalate_cons_of_ne_nil sep y ((y' :: t) ++ [x]) (by simp),
        intercalate_concat_ne_nil sep x (y' :: t) (by simp),
        intercalate_cons_of_ne_nil sep y (y' :: t) (by simp)]
      simp [List.append_assoc]

lemma flatten_map_newline (cs : List (List Char)) (h : cs ≠ []) :
    (cs.map (fun ch => ch ++ ['\n'])).flatten = List.intercalate ['\n'] cs ++ ['\n'] := by
  induction cs with
  | nil => exact absurd rfl h
  | cons c t IH =>
      cases t with
      | nil => simp [intercalate_single]
      | cons c' t' =>
          rw [List.map_cons, List.flatten_cons, IH (by simp),
            intercalate_cons_of_ne_nil ['\n'] c (c' :: t') (by simp)]
          simp [List.append_assoc]

/-- If every chunk is nonempty with whitespace-free characters, stripping the
newline-terminated concatenation leaves exactly the newline-separated join:
only the final trailing newline is removed. -/
lemma pyStrip_flatten_newline_chunks (cs : List (List Char)) (hne : cs ≠ [])
    (hch : ∀ ch ∈ cs, ch ≠ [] ∧ ∀ c ∈ ch, pyIsSpace c = false) :
    pyStrip ((cs.map (fun ch => ch ++ ['\n'])).flatten) = List.intercalate ['\n'] cs := by
  rw [flatten_map_newline cs hne]
  -- front decomposition: the join starts with the first chunk's first char
  obtain ⟨c0, t, rfl⟩ := List.exists_cons_of_ne_nil hne
  obtain ⟨h0ne, h0ns⟩ := hch c0 (List.mem_cons_self _ _)
  obtain ⟨hc, c0t, rfl⟩ := List.exists_cons_of_ne_nil h0ne
  have hufront : ∃ v, List.intercalate ['\n'] ((hc :: c0t) :: t) = hc :: v := by
    cases t with
    | nil => exact ⟨c0t, by rw [intercalate_single]⟩
    | cons c' t' =>
        refine ⟨c0t ++ ['\n'] ++ List.intercalate ['\n'] (c' :: t'), ?_⟩
        rw [intercalate_cons_of_ne_nil _ _ _ (by simp)]
        simp
  -- back decomposition: the join ends with the last chunk's last char
  have huback : ∃ w cl, List.intercalate ['\n'] ((hc :: c0t) :: t) = w ++ [cl]
      ∧ ∃ ch ∈ (hc :: c0t) :: t, cl ∈ ch := by
    rcases List.eq_nil_or_concat t with rfl | ⟨init, clast, rfl⟩
    · obtain ⟨ci, cl, hcl⟩ := List.eq_nil_or_concat (hc :: c0t) |>.resolve_left (by simp)
      exact ⟨ci, cl, by rw [intercalate_single, hcl, List.concat_eq_append],
        (hc :: c0t), List.mem_cons_self _ _, by rw [hcl]; simp⟩
    · simp only [List.concat_eq_append] at hch ⊢
      have hclastne : clast ≠ [] := (hch clast (by simp)).1
      obtain ⟨ci, cl, hcl⟩ := (List.eq_nil_or_concat clast).resolve_left hclastne
      refine ⟨List.intercalate ['\n'] ((hc :: c0t) :: init) ++ ['\n'] ++ ci, cl, ?_, ?_⟩
      · rw [show ((hc :: c0t) :: (init ++ [clast])) = ((hc :: c0t) :: init) ++ [clast] by simp,
          intercalate_concat_ne_nil ['\n'] clast ((hc :: c0t) :: init) (by simp),
          hcl, List.concat_eq_append]
        simp [List.append_assoc]
      · exact ⟨clast, by simp, by rw [hcl]; simp⟩
  obtain ⟨v, hv⟩ := hufront
  obtain ⟨w, cl, hw, ch, hchmem, hclmem⟩ := huback
  have hclns : pyIsSpace cl = false := (hch ch hchmem).2 cl hclmem
  have hhcns : pyIsSpace hc = false := h0ns hc (List.mem_cons_self _ _)
  unfold pyStrip
  have h1 : (List.intercalate ['\n'] ((hc :: c0t) :: t) ++ ['\n']).dropWhile pyIsSpace
      = List.intercalate ['\n'] ((hc :: c0t) :: t) ++ ['\n'] := by
    rw [hv, List.cons_append, List.dropWhile_cons, hhcns]
    simp
  rw [h1]
  have h2 : (List.intercalate ['\n'] ((hc :: c0t) :: t) ++ ['\n']).reverse
      = '\n' :: (List.intercalate ['\n'] ((hc :: c0t) :: t)).reverse := by
    simp
  rw [h2, List.dropWhile_cons]
  have h3 : pyIsSpace '\n' = true := rfl
  rw [h3]
  simp only [if_true]
  have h4 : (List.intercalate ['\n'] ((hc :: c0t) :: t)).reverse
      = cl :: w.reverse := by
    rw [hw]
    simp
  rw [h4, List.dropWhile_cons, hclns]
  simp only [Bool.false_eq_true, if_false]
  rw [← h4, List.reverse_reverse]

/-! ## Claim C3 -/

/-- Claim C3, counterexample: three of its conjuncts fail on `fold_title`.
(1) For the 31-character title of 30 `a`s followed by a space, the result has
1 line, not `ceil(31/30) = 2` (the whitespace-only second chunk is stripped
away entirely).  (2) `fold_title " x" = "x"`: leading whitespace is removed
too, not only trailing whitespace/newline (Python `strip()` trims both ends).
(3) Folding is not idempotent on content length: refolding the 61-character
folded form of 60 `a`s yields 63 characters, because the embedded newline is
counted when re-chunking. -/
theorem fold_title_spec_violations :
    ((List.replicate 30 'a' ++ [' ']).length = 31
      ∧ (List.splitOn '\n' (fold_title (List.replicate 30 'a' ++ [' ']))).length = 1
      ∧ (31 + 29) / 30 = 2)
    ∧ fold_title [' ', 'x'] = ['x']
    ∧ ((fold_title (List.replicate 60 'a')).length = 61
      ∧ (fold_title (fold_title (List.replicate 60 'a'))).length = 63) := by
  decide

/-- Claim C3 (amended): `fold_title` cuts the title into consecutive chunks of
width 30 regardless of word boundaries, appends a newline to each, and strips
leading AND trailing whitespace from the concatenation (Python `strip()`).
Every chunk has length at most 30 and the chunks concatenate back to the
title.  For titles containing no whitespace character the folded result is
exactly the chunks joined by newlines, its lines are exactly the chunks
(`ceil(L/30)` of them for a nonempty title), each at most 30 characters. -/
theorem fold_title_amended (t : List Char) (h : ∀ c ∈ t, pyIsSpace c = false) :
    fold_title t = List.intercalate ['\n'] (foldChunks t)
    ∧ (foldChunks t).flatten = t
    ∧ (∀ ch ∈ foldChunks t, ch.length ≤ 30)
    ∧ (t ≠ [] →
        (fold_title t).splitOn '\n' = foldChunks t
        ∧ (foldChunks t).length = (t.length + 29) / 30) := by
  have hchars : ∀ ch ∈ foldChunks t, ch ≠ [] ∧ ∀ c ∈ ch, pyIsSpace c = false := by
    intro ch hch
    refine ⟨(foldChunks_chunk_facts t ch hch).2, ?_⟩
    intro c hc
    apply h
    rw [← foldChunks_flatten t]
    exact List.mem_flatten.mpr ⟨ch, hch, hc⟩
  by_cases ht : t = []
  · subst ht
    exact ⟨rfl, rfl, by simp [foldChunks_nil], fun hne => absurd rfl hne⟩
  · have hcne : foldChunks t ≠ [] := by
      rw [foldChunks_cons t ht]
      simp
    have hmain : fold_title t = List.intercalate ['\n'] (foldChunks t) :=
      pyStrip_flatten_newline_chunks (foldChunks t) hcne hchars
    refine ⟨hmain, foldChunks_flatten t,
      fun ch hch => (foldChunks_chunk_facts t ch hch).1, fun _ => ⟨?_, foldChunks_length t ht⟩⟩
    rw [hmain]
    refine List.splitOn_intercalate (foldChunks t) '\n' ?_ hcne
    intro ch hch hmem
    have := (hchars ch hch).2 '\n' hmem
    simp [pyIsSpace] at this

/-- Witness for `fold_title_amended` on a concrete whitespace-free title of
31 characters: it folds into two lines of 30 and 1 characters. -/
theorem fold_title_amended_witness :
    (∀ c ∈ List.replicate 31 'b', pyIsSpace c = false)
    ∧ (fold_title (List.replicate 31 'b')
          = List.intercalate ['\n'] (foldChunks (List.replicate 31 'b'))
       ∧ (foldChunks (List.replicate 31 'b')).flatten = List.replicate 31 'b'
       ∧ (∀ ch ∈ foldChunks (List.replicate 31 'b'), ch.length ≤ 30)
       ∧ (List.replicate 31 'b' ≠ [] →
           (fold_title (List.replicate 31 'b')).splitOn '\n'
              = foldChunks (List.replicate 31 'b')
           ∧ (foldChunks (List.replicate 31 'b')).length
              = ((List.replicate 31 'b').length + 29) / 30)) :=
  ⟨by decide, fold_title_amended (List.replicate 31 'b') (by decide)⟩

/-! ## HTTP endpoints (`app.py` lines 17-42, `api/visualize.py` lines 33-107)
and the orchestrator entry (`visualize_embeddings.py` lines 174-205).

The embedding model and the plotting stack are external dependencies; the
pipeline from non-empty input to the final base64 string is abstracted as a
`plotFn` parameter (`Except` models a raised exception), so any theorem whose
conclusion holds for every `plotFn` shows the validation path never invokes
the pipeline internals. -/

/-- A JSON response: HTTP status plus the fields the handlers actually set
(`none` = key absent from the body). -/
structure JsonResp where
  status : ℕ
  error : Option PyStr
  success : Option Bool
  plot_image : Option PyStr
deriving DecidableEq, Repr

/-- The shared validation error message. -/
def missingFieldMsg : PyStr := "Missing informal_statement or lean_codes".toList

/-- `generate_visualization_plot`: empty `lean_codes` short-circuits to the
empty string; otherwise the embedding/plotting pipeline (abstracted as
`pipeline`) runs. -/
def generate_visualization_plot (pipeline : PyStr → List PyStr → Except PyStr PyStr)
    (informal_statement : PyStr) (lean_codes : List PyStr) : Except PyStr PyStr :=
  if lean_codes = [] then Except.ok []
  else pipeline informal_statement lean_codes

/-- The Flask route `POST /api/visualize` of `app.py`: falsy (empty) inputs
give a 400 whose body has only an `error` key; success gives 200 with
`plot_image` and `success: true`; an exception gives 500 with `error` and
`success: false`. -/
def app_visualize_embeddings (pipeline : PyStr → List PyStr → Except PyStr PyStr)
    (informal_statement : PyStr) (lean_codes : List PyStr) : JsonResp :=
  if informal_statement = [] ∨ lean_codes = [] then
    { status := 400, error := some missingFieldMsg, success := none, plot_image := none }
  else
    match generate_visualization_plot pipeline informal_statement lean_codes with
    | Except.ok plot =>
        { status := 200, error := none, success := some true, plot_image := some plot }
    | Except.error e =>
        { status := 500, error := some e, success := some false, plot_image := none }

/-- The Vercel serverless `handler` of `api/visualize.py` (modulo transport):
OPTIONS and non-POST methods answered first, then the dependency flag, then
the same emptiness validation — this handler's 400 body does include
`success: false`. -/
def handler (deps_available : Bool) (method : PyStr)
    (pipeline : PyStr → List PyStr → Except PyStr PyStr)
    (informal_statement : PyStr) (lean_codes : List PyStr) : JsonResp :=
  if method = "OPTIONS".toList then
    { status := 200, error := none, success := none, plot_image := none }
  else if method ≠ "POST".toList then
    { status := 405, error := some "Method not allowed".toList,
      success := none, plot_image := none }
  else if ¬ deps_available then
    { status := 500, error := some "Dependencies not available".toList,
      success := some false, plot_image := none }
  else if informal_statement = [] ∨ lean_codes = [] then
    { status := 400, error := some missingFieldMsg, success := some false, plot_image := none }
  else
    match generate_visualization_plot pipeline informal_statement lean_codes with
    | Except.ok plot =>
        { status := 200, error := none, success := some true, plot_image := some plot }
    | Except.error e =>
        { status := 500, error := some e, success := some false, plot_image := none }

/-! ## Claims C4 and C5 -/

/-- Claim C4, counterexample: for an empty `lean_codes` list the operation does
NOT return a success result — both HTTP handlers report the validation failure
(status 400 with the missing-field error), because `not lean_codes` is truthy
for an empty list.  Only the inner `generate_visualization_plot` would
short-circuit to an empty artifact, and it is never reached. -/
theorem empty_lean_codes_is_validation_error :
    (app_visualize_embeddings (fun _ _ => Except.ok []) ['x'] []).status = 400
    ∧ (app_visualize_embeddings (fun _ _ => Except.ok []) ['x'] []).success ≠ some true
    ∧ (app_visualize_embeddings (fun _ _ => Except.ok []) ['x'] []).error = some missingFieldMsg
    ∧ (handler true "POST".toList (fun _ _ => Except.ok []) ['x'] []).status = 400 := by
  refine ⟨rfl, by decide, rfl, rfl⟩

/-- Claim C4 (amended): the inner orchestrator `generate_visualization_plot`
does short-circuit an empty `lean_codes` list to an empty-string artifact
without invoking the pipeline, but the HTTP operation itself treats empty
`lean_codes` as a validation failure: both handlers answer 400 with the
missing-field error (and never invoke the pipeline either — the result below
holds for every `pipeline`). -/
theorem empty_lean_codes_behaviour
    (pipeline : PyStr → List PyStr → Except PyStr PyStr) (informal_statement : PyStr) :
    generate_visualization_plot pipeline informal_statement [] = Except.ok []
    ∧ app_visualize_embeddings pipeline informal_statement []
        = { status := 400, error := some missingFieldMsg,
            success := none, plot_image := none }
    ∧ handler true "POST".toList pipeline informal_statement []
        = { status := 400, error := some missingFieldMsg,
            success := some false, plot_image := none } := by
  refine ⟨rfl, ?_, ?_⟩
  · unfold app_visualize_embeddings
    rw [if_pos (Or.inr rfl)]
  · unfold handler
    rw [if_neg (by decide), if_neg (by decide), if_neg (by decide), if_pos (Or.inr rfl)]

/-- Claim C5, counterexample: for an empty `informal_statement` with non-empty
`lean_codes`, the Flask endpoint does return a client-error 400 with an error
message, but its body does NOT contain `success: false` — the 400 branch of
`app.py` only sets the `error` key.  (The serverless handler's body does.) -/
theorem app_validation_body_lacks_success_field :
    (app_visualize_embeddings (fun _ _ => Except.ok []) [] [['x']]).status = 400
    ∧ (app_visualize_embeddings (fun _ _ => Except.ok []) [] [['x']]).error = some missingFieldMsg
    ∧ (app_visualize_embeddings (fun _ _ => Except.ok []) [] [['x']]).success = none
    ∧ (app_visualize_embeddings (fun _ _ => Except.ok []) [] [['x']]).success ≠ some false := by
  refine ⟨rfl, rfl, rfl, by decide⟩

/-- Claim C5 (amended): for every request with empty `informal_statement` and
non-empty `lean_codes`, both handlers fail with a client-error 400 carrying an
error string that names the missing field, and the pipeline internals are
never invoked (the responses are independent of `pipeline`); the serverless
handler's body additionally carries `success: false`, while the Flask
endpoint's 400 body has no `success` key at all. -/
theorem empty_informal_statement_validation
    (pipeline : PyStr → List PyStr → Except PyStr PyStr)
    (lean_codes : List PyStr) (_h : lean_codes ≠ []) :
    app_visualize_embeddings pipeline [] lean_codes
      = { status := 400, error := some missingFieldMsg,
          success := none, plot_image := none }
    ∧ handler true "POST".toList pipeline [] lean_codes
      = { status := 400, error := some missingFieldMsg,
          success := some false, plot_image := none } := by
  constructor
  · unfold app_visualize_embeddings
    rw [if_pos (Or.inl rfl)]
  · unfold handler
    rw [if_neg (by decide), if_neg (by decide), if_neg (by decide), if_pos (Or.inl rfl)]

/-- Witness for `empty_informal_statement_validation` with the single snippet
`"x"` and the trivial pipeline. -/
theorem empty_informal_statement_validation_witness :
    ([['x']] ≠ ([] : List PyStr))
    ∧ (app_visualize_embeddings (fun _ _ => Except.ok []) [] [['x']]
        = { status := 400, error := some missingFieldMsg,
            success := none, plot_image := none }
       ∧ handler true "POST".toList (fun _ _ => Except.ok []) [] [['x']]
        = { status := 400, error := some missingFieldMsg,
            success := some false, plot_image := none }) :=
  ⟨by decide, empty_informal_statement_validation (fun _ _ => Except.ok []) [['x']] (by decide)⟩

/-! ## The plotting routine `visualize_embeddings` (lines 87-171)

Matplotlib calls are modelled as a trace of render operations, and the two
randomized library algorithms (`KMeans(...).fit_predict`, `TSNE(...).
fit_transform`) as function parameters receiving exactly the arguments the
code passes (`n_clusters`/`perplexity` and `random_state`); a conclusion that
holds for every such function is therefore a statement about the calling code
alone. -/

/-- One observable action of the plotting routine. -/
inductive RenderOp where
  | drawText (panel : ℕ) (msg : PyStr)
  | setTitle (panel : ℕ) (msg : PyStr)
  | scatterPoints (panel : ℕ) (pts : List (ℚ × ℚ)) (colorLabels : List ℕ)
  | scatterHighlights (panel : ℕ) (pts : List (ℚ × ℚ))
  | drawLabel (panel : ℕ) (pos : ℚ × ℚ) (txt : PyStr)
  | adjustLabels (panel : ℕ)
  | kmeansCall (nClusters : ℕ) (randomState : ℕ)
  | tsneCall (perplexity : ℕ) (randomState : ℕ)
deriving DecidableEq, Repr

/-- `PERPLEXITY = 30` (line 19). -/
def PERPLEXITY : ℕ := 30

/-- The placeholder message of the degenerate (`N < 4`) branch, including the
actual count. -/
def degenerateMsg (n : ℕ) : PyStr :=
  "Need at least 4 formalizations\nfor clustering analysis\n(Currently: ".toList
    ++ (toString n).toList ++ ")".toList

/-- Label text: `code[:50] + "..."` when the snippet is longer than 50
characters. -/
def truncateCode (code : PyStr) : PyStr :=
  if 50 < code.length then code.take 50 ++ "...".toList else code

/-- The left-panel title `f"2-cluster: {fold_title(title)}"`. -/
def panelTitle2 (title : PyStr) : PyStr :=
  "2-cluster: ".toList ++ fold_title title

/-- `visualize_embeddings(ax, formalizations, embeddings, title)`: the
degenerate branch renders two placeholder panels; the full branch clusters at
`min(2, N)` and `min(4, N)` with `random_state=0`, projects with
`perplexity = min(PERPLEXITY, N - 1)` and `random_state=0`, and renders both
panels with highlighted representatives and truncated snippet labels
(`adjust_text` is invoked per panel only when that panel has labels). -/
def visualize_embeddings
    (kmeansLib : ℕ → ℕ → List (List ℚ) → List ℕ)
    (tsneLib : ℕ → ℕ → List (List ℚ) → List (ℚ × ℚ))
    (formalizations : List PyStr)
    (embeddings : List (List ℚ))
    (title : PyStr) : List RenderOp :=
  if embeddings.length < 4 then
    [RenderOp.drawText 0 (degenerateMsg embeddings.length),
     RenderOp.drawText 1 (degenerateMsg embeddings.length),
     RenderOp.setTitle 0 (panelTitle2 title),
     RenderOp.setTitle 1 "4-cluster".toList]
  else
    let labels_2cluster := kmeansLib (min 2 embeddings.length) 0 embeddings
    let cluster2_center_idxs := cluster_center_idxs embeddings labels_2cluster
    let labels_4cluster := kmeansLib (min 4 embeddings.length) 0 embeddings
    let cluster4_center_idxs := cluster_center_idxs embeddings labels_4cluster
    let perplexity := min PERPLEXITY (embeddings.length - 1)
    let embeddings_2d := tsneLib perplexity 0 embeddings
    [RenderOp.kmeansCall (min 2 embeddings.length) 0,
     RenderOp.kmeansCall (min 4 embeddings.length) 0,
     RenderOp.tsneCall perplexity 0,
     RenderOp.setTitle 0 (panelTitle2 title),
     RenderOp.scatterPoints 0 embeddings_2d labels_2cluster,
     RenderOp.scatterHighlights 0
       (cluster2_center_idxs.map (fun i => embeddings_2d.getD i (0, 0)))]
    ++ cluster2_center_idxs.map (fun i =>
         RenderOp.drawLabel 0 (embeddings_2d.getD i (0, 0))
           (truncateCode (formalizations.getD i [])))
    ++ (if cluster2_center_idxs = [] then [] else [RenderOp.adjustLabels 0])
    ++ [RenderOp.setTitle 1 "4-cluster".toList,
        RenderOp.scatterPoints 1 embeddings_2d labels_4cluster,
        RenderOp.scatterHighlights 1
          (cluster4_center_idxs.map (fun i => embeddings_2d.getD i (0, 0)))]
    ++ cluster4_center_idxs.map (fun i =>
         RenderOp.drawLabel 1 (embeddings_2d.getD i (0, 0))
           (truncateCode (formalizations.getD i [])))
    ++ (if cluster4_center_idxs = [] then [] else [RenderOp.adjustLabels 1])

/-- Extract the `(n_clusters, random_state)` argument of a KMeans invocation. -/
def kmeansArg : RenderOp → Option (ℕ × ℕ)
  | RenderOp.kmeansCall n s => some (n, s)
  | _ => none

/-- Extract the `(perplexity, random_state)` argument of a TSNE invocation. -/
def tsneArg : RenderOp → Option (ℕ × ℕ)
  | RenderOp.tsneCall p s => some (p, s)
  | _ => none

/-- The sequence of KMeans invocations in a trace, in order. -/
def kmeansArgs (tr : List RenderOp) : List (ℕ × ℕ) := tr.filterMap kmeansArg

/-- The sequence of TSNE invocations in a trace, in order. -/
def tsneArgs (tr : List RenderOp) : List (ℕ × ℕ) := tr.filterMap tsneArg

lemma kmeansArg_drawLabel (panel : ℕ) (pos : ℚ × ℚ) (txt : PyStr) :
    kmeansArg (RenderOp.drawLabel panel pos txt) = none := rfl

lemma tsneArg_drawLabel (panel : ℕ) (pos : ℚ × ℚ) (txt : PyStr) :
    tsneArg (RenderOp.drawLabel panel pos txt) = none := rfl

/-- In the full-analysis branch (`N ≥ 4`), the trace decomposes; library calls
appear only in its head. -/
lemma visualize_embeddings_full
    (kmeansLib : ℕ → ℕ → List (List ℚ) → List ℕ)
    (tsneLib : ℕ → ℕ → List (List ℚ) → List (ℚ × ℚ))
    (formalizations : List PyStr) (embeddings : List (List ℚ)) (title : PyStr)
    (h : 4 ≤ embeddings.length) :
    kmeansArgs (visualize_embeddings kmeansLib tsneLib formalizations embeddings title)
      = [(min 2 embeddings.length, 0), (min 4 embeddings.length, 0)]
    ∧ tsneArgs (visualize_embeddings kmeansLib tsneLib formalizations embeddings title)
      = [(min PERPLEXITY (embeddings.length - 1), 0)] := by
  unfold visualize_embeddings
  rw [if_neg (not_lt.mpr h)]
  constructor
  · simp [kmeansArgs, List.filterMap_append, List.filterMap_map, Function.comp,
      apply_ite (List.filterMap kmeansArg), kmeansArg]
  · simp [tsneArgs, List.filterMap_append, List.filterMap_map, Function.comp,
      apply_ite (List.filterMap tsneArg), tsneArg]

/-! ## Claims C6, C7, C8, C9 -/

/-- Claim C6: for fewer than 4 embeddings the routine renders exactly two
placeholder panels whose message states the minimum-count requirement and the
actual count, never invokes the clustering or projection libraries (no
`kmeansCall`/`tsneCall` in the trace), and its output does not depend on the
library functions at all. -/
theorem visualize_embeddings_degenerate
    (kmeansLib : ℕ → ℕ → List (List ℚ) → List ℕ)
    (tsneLib : ℕ → ℕ → List (List ℚ) → List (ℚ × ℚ))
    (formalizations : List PyStr) (embeddings : List (List ℚ)) (title : PyStr)
    (h : embeddings.length < 4) :
    visualize_embeddings kmeansLib tsneLib formalizations embeddings title
      = [RenderOp.drawText 0 (degenerateMsg embeddings.length),
         RenderOp.drawText 1 (degenerateMsg embeddings.length),
         RenderOp.setTitle 0 (panelTitle2 title),
         RenderOp.setTitle 1 "4-cluster".toList]
    ∧ (∀ n s, RenderOp.kmeansCall n s ∉
        visualize_embeddings kmeansLib tsneLib formalizations embeddings title)
    ∧ (∀ p s, RenderOp.tsneCall p s ∉
        visualize_embeddings kmeansLib tsneLib formalizations embeddings title)
    ∧ (∀ (kmeansLib' : ℕ → ℕ → List (List ℚ) → List ℕ)
         (tsneLib' : ℕ → ℕ → List (List ℚ) → List (ℚ × ℚ)),
        visualize_embeddings kmeansLib' tsneLib' formalizations embeddings title
          = visualize_embeddings kmeansLib tsneLib formalizations embeddings title) := by
  have heq : ∀ (km : ℕ → ℕ → List (List ℚ) → List ℕ)
      (ts : ℕ → ℕ → List (List ℚ) → List (ℚ × ℚ)),
      visualize_embeddings km ts formalizations embeddings title
        = [RenderOp.drawText 0 (degenerateMsg embeddings.length),
           RenderOp.drawText 1 (degenerateMsg embeddings.length),
           RenderOp.setTitle 0 (panelTitle2 title),
           RenderOp.setTitle 1 "4-cluster".toList] := by
    intro km ts
    unfold visualize_embeddings
    rw [if_pos h]
  refine ⟨heq _ _, ?_, ?_, fun km' ts' => (heq km' ts').trans (heq _ _).symm⟩
  · intro n s
    rw [heq]
    simp
  · intro p s
    rw [heq]
    simp

/-- Witness for `visualize_embeddings_degenerate` at three 1-dimensional
embeddings (N = 3 < 4) and trivial library functions. -/
theorem visualize_embeddings_degenerate_witness :
    ([[(1 : ℚ)], [2], [3]].length < 4)
    ∧ (visualize_embeddings (fun _ _ _ => []) (fun _ _ _ => []) [] [[(1 : ℚ)], [2], [3]] []
        = [RenderOp.drawText 0 (degenerateMsg [[(1 : ℚ)], [2], [3]].length),
           RenderOp.drawText 1 (degenerateMsg [[(1 : ℚ)], [2], [3]].length),
           RenderOp.setTitle 0 (panelTitle2 []),
           RenderOp.setTitle 1 "4-cluster".toList]
       ∧ (∀ n s, RenderOp.kmeansCall n s ∉
           visualize_embeddings (fun _ _ _ => []) (fun _ _ _ => []) [] [[(1 : ℚ)], [2], [3]] [])
       ∧ (∀ p s, RenderOp.tsneCall p s ∉
           visualize_embeddings (fun _ _ _ => []) (fun _ _ _ => []) [] [[(1 : ℚ)], [2], [3]] [])
       ∧ (∀ (kmeansLib' : ℕ → ℕ → List (List ℚ) → List ℕ)
            (tsneLib' : ℕ → ℕ → List (List ℚ) → List (ℚ × ℚ)),
           visualize_embeddings kmeansLib' tsneLib' [] [[(1 : ℚ)], [2], [3]] []
             = visualize_embeddings (fun _ _ _ => []) (fun _ _ _ => []) []
                 [[(1 : ℚ)], [2], [3]] [])) :=
  ⟨by decide,
    visualize_embeddings_degenerate (fun _ _ _ => []) (fun _ _ _ => []) []
      [[(1 : ℚ)], [2], [3]] [] (by decide)⟩

/-- Claim C7: the `n_clusters` argument actually passed to KMeans is
`min(k, N)` for each requested `k ∈ {2, 4}` — the full-analysis trace contains
exactly the two invocations `(min 2 N, seed 0)` and `(min 4 N, seed 0)` — and
clamping yields `N`, never `k`, whenever `k > N`. -/
theorem effective_cluster_count_clamped
    (kmeansLib : ℕ → ℕ → List (List ℚ) → List ℕ)
    (tsneLib : ℕ → ℕ → List (List ℚ) → List (ℚ × ℚ))
    (formalizations : List PyStr) (embeddings : List (List ℚ)) (title : PyStr)
    (h : 4 ≤ embeddings.length) :
    kmeansArgs (visualize_embeddings kmeansLib tsneLib formalizations embeddings title)
      = [(min 2 embeddings.length, 0), (min 4 embeddings.length, 0)]
    ∧ (∀ k, embeddings.length < k → min k embeddings.length = embeddings.length) :=
  ⟨(visualize_embeddings_full kmeansLib tsneLib formalizations embeddings title h).1,
   fun _ hk => min_eq_right (le_of_lt hk)⟩

/-- Witness for `effective_cluster_count_clamped` at four 1-dimensional
embeddings and trivial library functions. -/
theorem effective_cluster_count_clamped_witness :
    (4 ≤ [[(1 : ℚ)], [2], [3], [4]].length)
    ∧ (kmeansArgs (visualize_embeddings (fun _ _ _ => []) (fun _ _ _ => []) []
          [[(1 : ℚ)], [2], [3], [4]] [])
        = [(min 2 [[(1 : ℚ)], [2], [3], [4]].length, 0),
           (min 4 [[(1 : ℚ)], [2], [3], [4]].length, 0)]
       ∧ (∀ k, [[(1 : ℚ)], [2], [3], [4]].length < k →
           min k [[(1 : ℚ)], [2], [3], [4]].length = [[(1 : ℚ)], [2], [3], [4]].length)) :=
  ⟨by decide,
    effective_cluster_count_clamped (fun _ _ _ => []) (fun _ _ _ => []) []
      [[(1 : ℚ)], [2], [3], [4]] [] (by decide)⟩

/-- Claim C8: the perplexity passed to TSNE is `min(PERPLEXITY, N - 1)` with
`PERPLEXITY = 30` — the trace contains exactly that one invocation — and this
value never exceeds `N - 1`. -/
theorem perplexity_clamped
    (kmeansLib : ℕ → ℕ → List (List ℚ) → List ℕ)
    (tsneLib : ℕ → ℕ → List (List ℚ) → List (ℚ × ℚ))
    (formalizations : List PyStr) (embeddings : List (List ℚ)) (title : PyStr)
    (h : 4 ≤ embeddings.length) :
    tsneArgs (visualize_embeddings kmeansLib tsneLib formalizations embeddings title)
      = [(min PERPLEXITY (embeddings.length - 1), 0)]
    ∧ min PERPLEXITY (embeddings.length - 1) ≤ embeddings.length - 1 :=
  ⟨(visualize_embeddings_full kmeansLib tsneLib formalizations embeddings title h).2,
   min_le_right _ _⟩

/-- Witness for `perplexity_clamped` at four 1-dimensional embeddings: the
perplexity used is `min 30 3 = 3`. -/
theorem perplexity_clamped_witness :
    (4 ≤ [[(1 : ℚ)], [2], [3], [4]].length)
    ∧ (tsneArgs (visualize_embeddings (fun _ _ _ => []) (fun _ _ _ => []) []
          [[(1 : ℚ)], [2], [3], [4]] [])
        = [(min PERPLEXITY ([[(1 : ℚ)], [2], [3], [4]].length - 1), 0)]
       ∧ min PERPLEXITY ([[(1 : ℚ)], [2], [3], [4]].length - 1)
          ≤ [[(1 : ℚ)], [2], [3], [4]].length - 1) :=
  ⟨by decide,
    perplexity_clamped (fun _ _ _ => []) (fun _ _ _ => []) []
      [[(1 : ℚ)], [2], [3], [4]] [] (by decide)⟩

/-- Claim C9: every KMeans and TSNE invocation carries the fixed seed
`random_state = 0` (never an input- or time-dependent value), and therefore —
the libraries being modelled as deterministic functions of their arguments —
two runs on identical inputs produce the identical trace: same labels, same
representative indices, same projection, for both the k=2 and k=4 panels. -/
theorem clustering_deterministic_fixed_seed
    (kmeansLib : ℕ → ℕ → List (List ℚ) → List ℕ)
    (tsneLib : ℕ → ℕ → List (List ℚ) → List (ℚ × ℚ))
    (formalizations : List PyStr) (embeddings : List (List ℚ)) (title : PyStr)
    (h : 4 ≤ embeddings.length) :
    (∀ arg ∈ kmeansArgs (visualize_embeddings kmeansLib tsneLib formalizations
        embeddings title), arg.2 = 0)
    ∧ (∀ arg ∈ tsneArgs (visualize_embeddings kmeansLib tsneLib formalizations
        embeddings title), arg.2 = 0)
    ∧ kmeansArgs (visualize_embeddings kmeansLib tsneLib formalizations embeddings title) ≠ []
    ∧ visualize_embeddings kmeansLib tsneLib formalizations embeddings title
        = visualize_embeddings kmeansLib tsneLib formalizations embeddings title := by
  obtain ⟨hkm, hts⟩ :=
    visualize_embeddings_full kmeansLib tsneLib formalizations embeddings title h
  refine ⟨?_, ?_, ?_, rfl⟩
  · intro arg harg
    rw [hkm] at harg
    simp only [List.mem_cons, List.not_mem_nil, or_false] at harg
    rcases harg with rfl | rfl <;> rfl
  · intro arg harg
    rw [hts] at harg
    simp only [List.mem_cons, List.not_mem_nil, or_false] at harg
    rw [harg]
  · rw [hkm]
    simp

/-- Witness for `clustering_deterministic_fixed_seed` at four 1-dimensional
embeddings and trivial library functions. -/
theorem clustering_deterministic_fixed_seed_witness :
    (4 ≤ [[(1 : ℚ)], [2], [3], [4]].length)
    ∧ ((∀ arg ∈ kmeansArgs (visualize_embeddings (fun _ _ _ => []) (fun _ _ _ => []) []
          [[(1 : ℚ)], [2], [3], [4]] []), arg.2 = 0)
       ∧ (∀ arg ∈ tsneArgs (visualize_embeddings (fun _ _ _ => []) (fun _ _ _ => []) []
          [[(1 : ℚ)], [2], [3], [4]] []), arg.2 = 0)
       ∧ kmeansArgs (visualize_embeddings (fun _ _ _ => []) (fun _ _ _ => []) []
          [[(1 : ℚ)], [2], [3], [4]] []) ≠ []
       ∧ visualize_embeddings (fun _ _ _ => []) (fun _ _ _ => []) []
            [[(1 : ℚ)], [2], [3], [4]] []
          = visualize_embeddings (fun _ _ _ => []) (fun _ _ _ => []) []
            [[(1 : ℚ)], [2], [3], [4]] []) :=
  ⟨by decide,
    clustering_deterministic_fixed_seed (fun _ _ _ => []) (fun _ _ _ => []) []
      [[(1 : ℚ)], [2], [3], [4]] [] (by decide)⟩
